import Mathlib

/-!
Verification development for the implied-volatility surface core
(the update_surface callback of goldIV.py): quote normalisation,
RBF surface fitting, risk analytics and assembly, modelled as pure
functions over exact rationals (reals for the radial-basis evaluation).
-/

namespace GoldIV

/-- One row of a raw option chain: strike and implied volatility. -/
structure Row where
  strike : ℚ
  impliedVolatility : ℚ
deriving DecidableEq

/-- One expiration batch of the chain: expiration date (as a day number)
and its call rows, in the order the feed lists them. -/
structure Batch where
  expiry : ℤ
  calls : List Row
deriving DecidableEq

/-- A normalised observation: x = days to expiry, y = scaled strike,
z = implied volatility. -/
structure Obs where
  x : ℚ
  y : ℚ
  z : ℚ
deriving DecidableEq

/-- Source of the spot price. -/
inductive SpotSource where
  | MANUAL
  | FEED
deriving DecidableEq

/-- Market regime label. -/
inductive Regime where
  | BEARISH
  | BULLISH
  | NEUTRAL
deriving DecidableEq

/-- The metrics block computed by the analytics step. -/
structure Metrics where
  atmVol : ℚ
  otmVol : ℚ
  skew : ℚ
  regime : Regime
deriving DecidableEq

/-- The unit-conversion constant 10.885 applied to feed prices and strikes. -/
def multiplier : ℚ := 10885 / 1000

/-- Spot selection (lines 99-105): a supplied manual price is used verbatim
with source MANUAL when it is truthy (present and nonzero); otherwise the
feed close times the multiplier is used with source FEED. -/
def spotSelect (manualPrice : Option ℚ) (feedClose : ℚ) : ℚ × SpotSource :=
  match manualPrice with
  | some m => if m ≠ 0 then (m, SpotSource.MANUAL) else (feedClose * multiplier, SpotSource.FEED)
  | none => (feedClose * multiplier, SpotSource.FEED)

/-- The observation produced from one chain row (lines 118-123). -/
def obsOf (days : ℚ) (r : Row) : Obs :=
  ⟨days, r.strike * multiplier, r.impliedVolatility⟩

/-- The moneyness-band mask of line 115: strike times multiplier strictly
between 85 percent and 115 percent of spot. -/
def bandMask (spot : ℚ) (r : Row) : Bool :=
  decide (r.strike * multiplier > spot * (85 / 100)) &&
    decide (r.strike * multiplier < spot * (115 / 100))

/-- Normalisation of one expiration batch (lines 111-123): filter rows by
the band mask, then emit observations in input order. -/
def normalizeBatch (days : ℚ) (rows : List Row) (spot : ℚ) : List Obs :=
  (rows.filter (bandMask spot)).map (obsOf days)

/-- The chain scan of lines 108-123: the source iterates over
ticker.options[1:5], i.e. it drops the first listed expiration and takes at
most the next four, computing days to expiry per batch. -/
def scan (batches : List Batch) (asOf : ℤ) (spot : ℚ) : List Obs :=
  ((batches.drop 1).take 4).foldr
    (fun b acc => normalizeBatch ((b.expiry - asOf : ℤ) : ℚ) b.calls spot ++ acc) []

/-- Modelled from the spec: the day counts of the up-to-4 nearest future
expirations (the first four entries of the feed's ascending expiration
list), used to compare the scan of the source against the claimed
selection. -/
def nearestFourDays (batches : List Batch) (asOf : ℤ) : List ℚ :=
  (batches.take 4).map (fun b => ((b.expiry - asOf : ℤ) : ℚ))

/-- Minimum of a list of rationals, as the pandas min of a series:
none exactly on the empty list. -/
def listMin : List ℚ → Option ℚ
  | [] => none
  | a :: l =>
    some (match listMin l with
      | none => a
      | some m => min a m)

/-- Maximum of a list of rationals, none exactly on the empty list. -/
def listMax : List ℚ → Option ℚ
  | [] => none
  | a :: l =>
    some (match listMax l with
      | none => a
      | some m => max a m)

/-- The near-term subset (line 139): observations whose x equals the
minimum x of the set. -/
def nearTerm (obs : List Obs) : List Obs :=
  match listMin (obs.map (fun o => o.x)) with
  | none => []
  | some m => obs.filter (fun o => decide (o.x = m))

/-- First element minimising a key, ties resolved to the earliest
occurrence: the head of a stable ascending argsort (line 141). -/
def argminFirst (key : Obs → ℚ) : List Obs → Option Obs
  | [] => none
  | o :: rest =>
    match argminFirst key rest with
    | none => some o
    | some b => if key b < key o then some b else some o

/-- Regime labelling of line 183: BEARISH when skew exceeds 0.02 strictly,
else BULLISH when skew is strictly negative, else NEUTRAL. -/
def regimeOf (skew : ℚ) : Regime :=
  if skew > 2 / 100 then Regime.BEARISH
  else if skew < 0 then Regime.BULLISH
  else Regime.NEUTRAL

/-- Risk analytics (lines 139-147 and 183): on a nonempty near-term subset,
atm vol is the z of the near-term point with y closest to spot, otm vol the
z of the near-term point with y closest to spot plus 300 (falling back to
atm vol when that lookup is empty), skew their difference. On an empty
near-term subset the source leaves atm vol unbound and the request dies in
the metrics rendering, so no metrics are produced: none. -/
def analyze (obs : List Obs) (spot : ℚ) : Option Metrics :=
  match argminFirst (fun o => |o.y - spot|) (nearTerm obs) with
  | none => none
  | some a =>
    let otm :=
      match argminFirst (fun o => |o.y - (spot + 300)|) (nearTerm obs) with
      | none => a.z
      | some b => b.z
    some ⟨a.z, otm, otm - a.z, regimeOf (otm - a.z)⟩

/-- numpy linspace with endpoint: n evenly spaced values from a to b
(lines 129-130 use n = 30). -/
def linspace (a b : ℚ) (n : ℕ) : List ℚ :=
  (List.range n).map (fun i : ℕ => a + (i : ℚ) * (b - a) / ((n : ℚ) - 1))

/-- The x grid axis of line 129: 30 points from min x to max x. -/
def tiX (obs : List Obs) : List ℚ :=
  match listMin (obs.map (fun o => o.x)), listMax (obs.map (fun o => o.x)) with
  | some a, some b => linspace a b 30
  | _, _ => []

/-- The y grid axis of line 130: 30 points from min y to max y. -/
def tiY (obs : List Obs) : List ℚ :=
  match listMin (obs.map (fun o => o.y)), listMax (obs.map (fun o => o.y)) with
  | some a, some b => linspace a b 30
  | _, _ => []

/-- The meshgrid of line 131: row i has y fixed to the i-th y-axis value
and x ranging over the x axis. -/
def mesh (obs : List Obs) : List (List (ℚ × ℚ)) :=
  (tiY obs).map (fun yv => (tiX obs).map (fun xv => (xv, yv)))

/-- The (x, y) centre of an observation. -/
def pt (o : Obs) : ℚ × ℚ := (o.x, o.y)

/-- Euclidean distance between two centres, the linear radial kernel of
scipy Rbf with function linear (line 134). -/
noncomputable def eucDist (p q : ℚ × ℚ) : ℝ :=
  Real.sqrt (((p.1 : ℝ) - (q.1 : ℝ)) ^ 2 + ((p.2 : ℝ) - (q.2 : ℝ)) ^ 2)

/-- Default observation used only to give list indexing a total type. -/
def dObs : Obs := ⟨0, 0, 0⟩

/-- Evaluation of the fitted linear-kernel RBF surface with weights w at a
point p: the weighted sum of distances to the observation centres. -/
noncomputable def rbfEval (obs : List Obs) (w : List ℝ) (p : ℚ × ℚ) : ℝ :=
  ∑ j ∈ Finset.range obs.length, w.getD j 0 * eucDist p (pt (obs.getD j dObs))

/-- The weight system scipy Rbf solves with smoothing zero: the kernel
matrix of pairwise centre distances applied to w reproduces the observed z
values. The fitter accepts an observation set exactly when this system is
solvable. -/
def solvesRBF (obs : List Obs) (w : List ℝ) : Prop :=
  w.length = obs.length ∧
    ∀ i < obs.length,
      ∑ j ∈ Finset.range obs.length,
          eucDist (pt (obs.getD i dObs)) (pt (obs.getD j dObs)) * w.getD j 0 =
        ((obs.getD i dObs).z : ℝ)

/-- The evaluated height grid ZI of line 135: the RBF surface evaluated at
every mesh point. -/
noncomputable def fitZ (obs : List Obs) (w : List ℝ) : List (List ℝ) :=
  (mesh obs).map (fun row => row.map (rbfEval obs w))

/-- Number of distinct x values of an observation set. -/
def distinctX (obs : List Obs) : ℕ := ((obs.map (fun o => o.x)).dedup).length

/-- Number of distinct y values of an observation set. -/
def distinctY (obs : List Obs) : ℕ := ((obs.map (fun o => o.y)).dedup).length

/-- The assembled core output on the analytics side together with the grid
coordinates: none exactly when the request dies before producing output
(empty observation set). -/
def assembleCore (obs : List Obs) (spot : ℚ) :
    Option (List (List (ℚ × ℚ)) × Metrics) :=
  match analyze obs spot with
  | none => none
  | some m => some (mesh obs, m)

/-- Spec-side predicate: o is the first element of l attaining the minimum
of the key, i.e. everything before it is strictly larger and nothing in l
is smaller. -/
def isFirstMinBy (key : Obs → ℚ) (l : List Obs) (o : Obs) : Prop :=
  ∃ l1 l2, l = l1 ++ o :: l2 ∧ (∀ b ∈ l1, key o < key b) ∧ ∀ b ∈ l, key o ≤ key b

lemma listMin_eq_none (l : List ℚ) : listMin l = none ↔ l = [] := by
  cases l <;> simp [listMin]

lemma listMin_spec (l : List ℚ) (m : ℚ) (h : listMin l = some m) :
    m ∈ l ∧ ∀ b ∈ l, m ≤ b := by
  induction l generalizing m with
  | nil => simp [listMin] at h
  | cons a t ih =>
    rw [listMin] at h
    cases ht : listMin t with
    | none =>
      rw [ht] at h
      have h2 : a = m := Option.some.inj h
      have htnil : t = [] := (listMin_eq_none t).mp ht
      subst htnil
      subst h2
      simp
    | some m' =>
      rw [ht] at h
      have h2 : min a m' = m := Option.some.inj h
      obtain ⟨hmem, hle⟩ := ih m' ht
      subst h2
      constructor
      · rcases min_choice a m' with hc | hc
        · rw [hc]; exact List.mem_cons_self a t
        · rw [hc]; exact List.mem_cons_of_mem a hmem
      · intro b hb
        rcases List.mem_cons.mp hb with rfl | hb
        · exact min_le_left _ _
        · exact le_trans (min_le_right _ _) (hle b hb)

lemma argminFirst_eq_none (key : Obs → ℚ) (l : List Obs) :
    argminFirst key l = none ↔ l = [] := by
  cases l with
  | nil => simp [argminFirst]
  | cons o rest =>
    simp only [argminFirst, List.cons_ne_nil, iff_false]
    cases argminFirst key rest with
    | none => simp
    | some b => by_cases hb : key b < key o <;> simp [hb]

lemma argminFirst_spec (key : Obs → ℚ) (l : List Obs) (o : Obs)
    (h : argminFirst key l = some o) : isFirstMinBy key l o := by
  induction l generalizing o with
  | nil => simp [argminFirst] at h
  | cons a rest ih =>
    rw [argminFirst] at h
    cases hr : argminFirst key rest with
    | none =>
      rw [hr] at h
      have h2 : a = o := Option.some.inj h
      subst h2
      have hrnil : rest = [] := (argminFirst_eq_none key rest).mp hr
      subst hrnil
      exact ⟨[], [], rfl, by simp, by simp⟩
    | some b =>
      rw [hr] at h
      have h3 : (if key b < key a then some b else some a) = some o := h
      obtain ⟨l1, l2, heq, hlt, hle⟩ := ih b hr
      by_cases hb : key b < key a
      · rw [if_pos hb] at h3
        have h2 : b = o := Option.some.inj h3
        subst h2
        refine ⟨a :: l1, l2, by simp [heq], ?_, ?_⟩
        · intro c hc
          rcases List.mem_cons.mp hc with rfl | hc
          · exact hb
          · exact hlt c hc
        · intro c hc
          rcases List.mem_cons.mp hc with rfl | hc
          · exact le_of_lt hb
          · exact hle c (heq ▸ hc)
      · rw [if_neg hb] at h3
        have h2 : a = o := Option.some.inj h3
        subst h2
        refine ⟨[], rest, rfl, by simp, ?_⟩
        intro c hc
        rcases List.mem_cons.mp hc with rfl | hc
        · exact le_refl _
        · exact le_trans (not_lt.mp hb) (hle c (heq ▸ hc))

lemma mem_nearTerm (obs : List Obs) (o : Obs) :
    o ∈ nearTerm obs ↔ o ∈ obs ∧ ∀ o' ∈ obs, o.x ≤ o'.x := by
  unfold nearTerm
  cases h : listMin (obs.map fun o => o.x) with
  | none =>
    have hnil : obs = [] := by
      have := (listMin_eq_none _).mp h
      simpa using this
    subst hnil
    simp
  | some m =>
    obtain ⟨hmem, hle⟩ := listMin_spec _ m h
    simp only [List.mem_filter, decide_eq_true_eq]
    constructor
    · rintro ⟨ho, hx⟩
      refine ⟨ho, fun o' ho' => ?_⟩
      rw [hx]
      exact hle _ (List.mem_map_of_mem _ ho')
    · rintro ⟨ho, hall⟩
      refine ⟨ho, ?_⟩
      obtain ⟨o2, ho2, hx2⟩ := List.mem_map.mp hmem
      exact le_antisymm (hx2 ▸ hall o2 ho2) (hle _ (List.mem_map_of_mem _ ho))

lemma nearTerm_ne_nil (obs : List Obs) (h : obs ≠ []) : nearTerm obs ≠ [] := by
  have hm : ∃ m, listMin (obs.map fun o => o.x) = some m := by
    cases hl : listMin (obs.map fun o => o.x) with
    | none =>
      have := (listMin_eq_none _).mp hl
      have : obs = [] := by simpa using this
      exact absurd this h
    | some m => exact ⟨m, rfl⟩
  obtain ⟨m, hm⟩ := hm
  obtain ⟨hmem, hle⟩ := listMin_spec _ m hm
  obtain ⟨o2, ho2, hx2⟩ := List.mem_map.mp hmem
  have hmemNT : o2 ∈ nearTerm obs :=
    (mem_nearTerm obs o2).mpr
      ⟨ho2, fun o' ho' => hx2 ▸ hle _ (List.mem_map_of_mem _ ho')⟩
  intro hnil
  rw [hnil] at hmemNT
  exact List.not_mem_nil o2 hmemNT

lemma listMax_eq_none (l : List ℚ) : listMax l = none ↔ l = [] := by
  cases l <;> simp [listMax]

lemma listMax_spec (l : List ℚ) (m : ℚ) (h : listMax l = some m) :
    m ∈ l ∧ ∀ b ∈ l, b ≤ m := by
  induction l generalizing m with
  | nil => simp [listMax] at h
  | cons a t ih =>
    rw [listMax] at h
    cases ht : listMax t with
    | none =>
      rw [ht] at h
      have h2 : a = m := Option.some.inj h
      have htnil : t = [] := (listMax_eq_none t).mp ht
      subst htnil
      subst h2
      simp
    | some m' =>
      rw [ht] at h
      have h2 : max a m' = m := Option.some.inj h
      obtain ⟨hmem, hle⟩ := ih m' ht
      subst h2
      constructor
      · rcases max_choice a m' with hc | hc
        · rw [hc]; exact List.mem_cons_self a t
        · rw [hc]; exact List.mem_cons_of_mem a hmem
      · intro b hb
        rcases List.mem_cons.mp hb with rfl | hb
        · exact le_max_left _ _
        · exact le_trans (hle b hb) (le_max_right _ _)

lemma listMin_exists (l : List ℚ) (h : l ≠ []) : ∃ m, listMin l = some m := by
  cases l with
  | nil => exact absurd rfl h
  | cons a t => exact ⟨_, rfl⟩

lemma listMax_exists (l : List ℚ) (h : l ≠ []) : ∃ m, listMax l = some m := by
  cases l with
  | nil => exact absurd rfl h
  | cons a t => exact ⟨_, rfl⟩

lemma mem_foldr_append {α β : Type} (f : β → List α) (bs : List β) (o : α) :
    o ∈ bs.foldr (fun b acc => f b ++ acc) [] ↔ ∃ b ∈ bs, o ∈ f b := by
  induction bs with
  | nil => simp
  | cons b t ih => simp [List.mem_append, ih]

/-- Claim C2: on a nonempty observation set the analytics produce metrics
whose atm vol is the z of the first near-term observation with y closest
to spot, whose otm vol is the z of the first near-term observation with y
closest to spot plus 300, whose skew is their difference, where the
near-term subset is exactly the observations of minimum x. -/
theorem C2_risk_analytics (obs : List Obs) (spot : ℚ) (h : obs ≠ []) :
    ∃ mtr : Metrics, analyze obs spot = some mtr ∧
      mtr.skew = mtr.otmVol - mtr.atmVol ∧
      (∃ oA, isFirstMinBy (fun o => |o.y - spot|) (nearTerm obs) oA ∧
        mtr.atmVol = oA.z) ∧
      (∃ oO, isFirstMinBy (fun o => |o.y - (spot + 300)|) (nearTerm obs) oO ∧
        mtr.otmVol = oO.z) ∧
      (∀ o, o ∈ nearTerm obs ↔ o ∈ obs ∧ ∀ o' ∈ obs, o.x ≤ o'.x) := by
  have hnt : nearTerm obs ≠ [] := nearTerm_ne_nil obs h
  have ha : ∃ a, argminFirst (fun o => |o.y - spot|) (nearTerm obs) = some a := by
    cases haa : argminFirst (fun o => |o.y - spot|) (nearTerm obs) with
    | none => exact absurd ((argminFirst_eq_none _ _).mp haa) hnt
    | some a => exact ⟨a, rfl⟩
  have hb : ∃ b, argminFirst (fun o => |o.y - (spot + 300)|) (nearTerm obs) = some b := by
    cases hbb : argminFirst (fun o => |o.y - (spot + 300)|) (nearTerm obs) with
    | none => exact absurd ((argminFirst_eq_none _ _).mp hbb) hnt
    | some b => exact ⟨b, rfl⟩
  obtain ⟨a, ha⟩ := ha
  obtain ⟨b, hb⟩ := hb
  refine ⟨⟨a.z, b.z, b.z - a.z, regimeOf (b.z - a.z)⟩, ?_, rfl,
    ⟨a, argminFirst_spec _ _ _ ha, rfl⟩,
    ⟨b, argminFirst_spec _ _ _ hb, rfl⟩,
    fun o => mem_nearTerm obs o⟩
  simp [analyze, ha, hb]

/-- Witness for C2 at the scenario of the spec: four observations, spot
100, atm vol 0.20, otm vol 0.22, skew 0.02. -/
theorem C2_risk_analytics_witness :
    ([(⟨1, 100, 1 / 5⟩ : Obs), ⟨1, 103, 11 / 50⟩, ⟨7, 100, 19 / 100⟩,
        ⟨7, 103, 21 / 100⟩] ≠ []) ∧
    (∃ mtr : Metrics,
      analyze [(⟨1, 100, 1 / 5⟩ : Obs), ⟨1, 103, 11 / 50⟩, ⟨7, 100, 19 / 100⟩,
          ⟨7, 103, 21 / 100⟩] 100 = some mtr ∧
      mtr.skew = mtr.otmVol - mtr.atmVol ∧
      (∃ oA, isFirstMinBy (fun o => |o.y - 100|)
          (nearTerm [(⟨1, 100, 1 / 5⟩ : Obs), ⟨1, 103, 11 / 50⟩,
            ⟨7, 100, 19 / 100⟩, ⟨7, 103, 21 / 100⟩]) oA ∧ mtr.atmVol = oA.z) ∧
      (∃ oO, isFirstMinBy (fun o => |o.y - (100 + 300)|)
          (nearTerm [(⟨1, 100, 1 / 5⟩ : Obs), ⟨1, 103, 11 / 50⟩,
            ⟨7, 100, 19 / 100⟩, ⟨7, 103, 21 / 100⟩]) oO ∧ mtr.otmVol = oO.z) ∧
      (∀ o, o ∈ nearTerm [(⟨1, 100, 1 / 5⟩ : Obs), ⟨1, 103, 11 / 50⟩,
          ⟨7, 100, 19 / 100⟩, ⟨7, 103, 21 / 100⟩] ↔
        o ∈ [(⟨1, 100, 1 / 5⟩ : Obs), ⟨1, 103, 11 / 50⟩, ⟨7, 100, 19 / 100⟩,
          ⟨7, 103, 21 / 100⟩] ∧
          ∀ o' ∈ [(⟨1, 100, 1 / 5⟩ : Obs), ⟨1, 103, 11 / 50⟩,
            ⟨7, 100, 19 / 100⟩, ⟨7, 103, 21 / 100⟩], o.x ≤ o'.x)) :=
  ⟨by simp, C2_risk_analytics _ 100 (by simp)⟩

/-- Scenario evaluation backing C2: the analytics at the spec scenario
return atm vol 0.20, otm vol 0.22, skew 0.02 and regime NEUTRAL. -/
theorem analyze_scenario :
    analyze [(⟨1, 100, 1 / 5⟩ : Obs), ⟨1, 103, 11 / 50⟩, ⟨7, 100, 19 / 100⟩,
        ⟨7, 103, 21 / 100⟩] 100 =
      some ⟨1 / 5, 11 / 50, 1 / 50, Regime.NEUTRAL⟩ := by
  have hmin : listMin (([(⟨1, 100, 1 / 5⟩ : Obs), ⟨1, 103, 11 / 50⟩,
      ⟨7, 100, 19 / 100⟩, ⟨7, 103, 21 / 100⟩]).map fun o => o.x) = some 1 := by
    simp [listMin]
  have hnt : nearTerm [(⟨1, 100, 1 / 5⟩ : Obs), ⟨1, 103, 11 / 50⟩,
      ⟨7, 100, 19 / 100⟩, ⟨7, 103, 21 / 100⟩] =
      [⟨1, 100, 1 / 5⟩, ⟨1, 103, 11 / 50⟩] := by
    rw [nearTerm, hmin]
    norm_num [List.filter]
  unfold analyze
  rw [hnt]
  norm_num [argminFirst, regimeOf]

/-- Counterexample to claim C5 as stated: the source iterates over
ticker.options[1:5], skipping the nearest listed expiration, so with five
future expirations one day apart an observation is produced whose x is the
fifth-nearest expiration, not one of the four nearest. -/
theorem C5_counterexample :
    ∃ o ∈ scan [(⟨1, [⟨100, 1 / 5⟩]⟩ : Batch), ⟨2, [⟨100, 1 / 5⟩]⟩,
        ⟨3, [⟨100, 1 / 5⟩]⟩, ⟨4, [⟨100, 1 / 5⟩]⟩, ⟨5, [⟨100, 1 / 5⟩]⟩] 0 1000,
      o.x ∉ nearestFourDays [(⟨1, [⟨100, 1 / 5⟩]⟩ : Batch), ⟨2, [⟨100, 1 / 5⟩]⟩,
        ⟨3, [⟨100, 1 / 5⟩]⟩, ⟨4, [⟨100, 1 / 5⟩]⟩, ⟨5, [⟨100, 1 / 5⟩]⟩] 0 := by
  have hmask : bandMask 1000 ⟨100, 1 / 5⟩ = true := by
    simp only [bandMask, Bool.and_eq_true, decide_eq_true_eq, multiplier]
    norm_num
  have hfilter : List.filter (bandMask 1000) [(⟨100, 1 / 5⟩ : Row)] =
      [⟨100, 1 / 5⟩] := by
    simp only [List.filter_cons, List.filter_nil, hmask, if_true]
  refine ⟨⟨5, 100 * multiplier, 1 / 5⟩, ?_, ?_⟩
  · rw [scan, mem_foldr_append]
    refine ⟨⟨5, [⟨100, 1 / 5⟩]⟩, by simp, ?_⟩
    unfold normalizeBatch
    rw [hfilter]
    simp only [List.map_cons, List.map_nil, obsOf, List.mem_singleton,
      Obs.mk.injEq]
    norm_num
  · simp only [nearestFourDays]
    norm_num

/-- Amended claim C5: every produced observation's x corresponds to one of
the up-to-4 expirations at positions 2 through 5 of the feed's expiration
list (the nearest expiration is skipped), and x is nonnegative (indeed
positive) whenever the feed supplies only expirations strictly after the
as-of date. -/
theorem C5_expiry_window (batches : List Batch) (asOf : ℤ) (spot : ℚ)
    (hfut : ∀ b ∈ batches, asOf < b.expiry) :
    ∀ o ∈ scan batches asOf spot,
      0 ≤ o.x ∧ ∃ b ∈ (batches.drop 1).take 4,
        o.x = ((b.expiry - asOf : ℤ) : ℚ) := by
  intro o ho
  rw [scan, mem_foldr_append] at ho
  obtain ⟨b, hbmem, hob⟩ := ho
  have hbb : b ∈ batches :=
    List.mem_of_mem_drop (List.mem_of_mem_take hbmem)
  obtain ⟨r, hr, rfl⟩ := List.mem_map.mp hob
  refine ⟨?_, b, hbmem, rfl⟩
  have hpos : (0 : ℤ) < b.expiry - asOf := sub_pos.mpr (hfut b hbb)
  have : ((0 : ℤ) : ℚ) ≤ ((b.expiry - asOf : ℤ) : ℚ) := by
    exact_mod_cast le_of_lt hpos
  simpa [obsOf] using this

/-- Witness for the amended C5 at a concrete two-expiration chain. -/
theorem C5_expiry_window_witness :
    (∀ b ∈ [(⟨1, [⟨100, 1 / 5⟩]⟩ : Batch), ⟨2, [⟨100, 1 / 5⟩]⟩],
      (0 : ℤ) < b.expiry) ∧
    ∀ o ∈ scan [(⟨1, [⟨100, 1 / 5⟩]⟩ : Batch), ⟨2, [⟨100, 1 / 5⟩]⟩] 0 1000,
      0 ≤ o.x ∧ ∃ b ∈ ([(⟨1, [⟨100, 1 / 5⟩]⟩ : Batch),
          ⟨2, [⟨100, 1 / 5⟩]⟩].drop 1).take 4,
        o.x = ((b.expiry - 0 : ℤ) : ℚ) :=
  ⟨by decide, C5_expiry_window _ 0 1000 (by decide)⟩

/-- Claim C7 evaluated on the source model: on the empty observation set
the analytics produce no metrics, the fitter produces no grid axes and no
height grid, and the assembled core result is the error path, never a
silently empty success. The source reaches this through its generic
exception handler rather than through the typed errors the claim names. -/
theorem C7_empty_input (spot : ℚ) :
    analyze [] spot = none ∧ assembleCore [] spot = none ∧
    nearTerm [] = [] ∧ tiX [] = [] ∧ tiY [] = [] ∧ mesh [] = [] ∧
    ∀ w, fitZ [] w = [] :=
  ⟨rfl, rfl, rfl, rfl, rfl, rfl, fun _ => rfl⟩

/-- Claim C10: a nonzero manual spot is used verbatim with source MANUAL;
an absent or exactly-zero manual price falls back to the feed close times
the 10.885 multiplier with source FEED. -/
theorem C10_spot_override (m c : ℚ) :
    (m ≠ 0 → spotSelect (some m) c = (m, SpotSource.MANUAL)) ∧
    spotSelect (some 0) c = (c * multiplier, SpotSource.FEED) ∧
    spotSelect none c = (c * multiplier, SpotSource.FEED) := by
  refine ⟨fun hm => ?_, rfl, rfl⟩
  simp [spotSelect, hm]

/-- Witness for C10 at a concrete nonzero manual price. -/
theorem C10_spot_override_witness :
    spotSelect (some 5) 2 = (5, SpotSource.MANUAL) ∧
    spotSelect (some 0) 2 = (2 * multiplier, SpotSource.FEED) ∧
    spotSelect none 2 = (2 * multiplier, SpotSource.FEED) :=
  ⟨(C10_spot_override 5 2).1 (by norm_num), (C10_spot_override 5 2).2.1,
    (C10_spot_override 5 2).2.2⟩

/-- Claim C4: a row is included exactly when its scaled strike lies
strictly inside the 85 to 115 percent moneyness band around spot; every
produced observation satisfies the strict band, so boundary values are
excluded. -/
theorem C4_band_filter (spot days : ℚ) (rows : List Row) :
    (∀ o ∈ normalizeBatch days rows spot,
        spot * (85 / 100) < o.y ∧ o.y < spot * (115 / 100)) ∧
    (∀ r ∈ rows,
        (obsOf days r ∈ normalizeBatch days rows spot ↔
          spot * (85 / 100) < r.strike * multiplier ∧
            r.strike * multiplier < spot * (115 / 100))) ∧
    (∀ o ∈ normalizeBatch days rows spot,
        o.y ≠ spot * (85 / 100) ∧ o.y ≠ spot * (115 / 100)) := by
  have hband : ∀ o ∈ normalizeBatch days rows spot,
      spot * (85 / 100) < o.y ∧ o.y < spot * (115 / 100) := by
    intro o ho
    obtain ⟨r, hr, rfl⟩ := List.mem_map.mp ho
    obtain ⟨-, hmask⟩ := List.mem_filter.mp hr
    simp only [bandMask, Bool.and_eq_true, decide_eq_true_eq] at hmask
    exact ⟨hmask.1, hmask.2⟩
  refine ⟨hband, ?_, ?_⟩
  · intro r hr
    constructor
    · intro hmem
      have := hband _ hmem
      simpa [obsOf] using this
    · intro hb
      apply List.mem_map_of_mem
      apply List.mem_filter.mpr
      refine ⟨hr, ?_⟩
      simp only [bandMask, Bool.and_eq_true, decide_eq_true_eq]
      exact ⟨hb.1, hb.2⟩
  · intro o ho
    have := hband o ho
    exact ⟨ne_of_gt this.1, ne_of_lt this.2⟩

/-- Witness for C4 at a concrete chain: a row inside the band is included,
and its produced observation respects the strict band. -/
theorem C4_band_filter_witness :
    (obsOf 3 ⟨100, 1 / 5⟩ ∈
        normalizeBatch 3 [⟨100, 1 / 5⟩] 1000 ↔
      (1000 : ℚ) * (85 / 100) < 100 * multiplier ∧
        (100 : ℚ) * multiplier < 1000 * (115 / 100)) ∧
    (∀ o ∈ normalizeBatch 3 [(⟨100, 1 / 5⟩ : Row)] 1000,
        (1000 : ℚ) * (85 / 100) < o.y ∧ o.y < 1000 * (115 / 100)) :=
  ⟨(C4_band_filter 1000 3 [⟨100, 1 / 5⟩]).2.1 ⟨100, 1 / 5⟩ (by simp),
    (C4_band_filter 1000 3 [⟨100, 1 / 5⟩]).1⟩

/-- Claim C3: the regime is BEARISH exactly when skew exceeds 0.02
strictly, BULLISH exactly when it does not and skew is strictly negative,
NEUTRAL otherwise; skew exactly 0.02 gives NEUTRAL; a positive skew (otm
above atm) never yields BULLISH; and the analytics always label the
metrics with the regime of their skew. -/
theorem C3_regime (atm otm skew : ℚ) :
    (regimeOf skew = Regime.BEARISH ↔ skew > 2 / 100) ∧
    (regimeOf skew = Regime.BULLISH ↔ ¬skew > 2 / 100 ∧ skew < 0) ∧
    (regimeOf skew = Regime.NEUTRAL ↔ ¬skew > 2 / 100 ∧ ¬skew < 0) ∧
    regimeOf (2 / 100) = Regime.NEUTRAL ∧
    (otm > atm → 0 < otm - atm ∧ regimeOf (otm - atm) ≠ Regime.BULLISH) ∧
    (∀ obs spot mtr, analyze obs spot = some mtr →
      mtr.regime = regimeOf mtr.skew) := by
  refine ⟨?_, ?_, ?_, by norm_num [regimeOf], ?_, ?_⟩
  · unfold regimeOf; split_ifs <;> simp_all
  · unfold regimeOf; split_ifs <;> simp_all
  · unfold regimeOf; split_ifs <;> simp_all
  · intro hgt
    have hpos : 0 < otm - atm := sub_pos.mpr hgt
    refine ⟨hpos, ?_⟩
    by_cases h1 : otm - atm > 2 / 100
    · simp [regimeOf, h1]
    · have h2 : ¬otm - atm < 0 := not_lt.mpr (le_of_lt hpos)
      simp [regimeOf, h1, h2]
  · intro obs spot mtr h
    unfold analyze at h
    cases ha : argminFirst (fun o => |o.y - spot|) (nearTerm obs) with
    | none => rw [ha] at h; exact absurd h (by simp)
    | some a =>
      rw [ha] at h
      simp only [Option.some.injEq] at h
      subst h
      rfl

/-- Witness for C3: concrete skews on each side of the thresholds. -/
theorem C3_regime_witness :
    regimeOf (2 / 100) = Regime.NEUTRAL ∧
    (0 : ℚ) < 3 / 50 - 0 ∧ regimeOf (3 / 50 - 0) ≠ Regime.BULLISH :=
  ⟨(C3_regime 0 0 0).2.2.2.1,
    ((C3_regime 0 (3 / 50) 0).2.2.2.2.1 (by norm_num)).1,
    ((C3_regime 0 (3 / 50) 0).2.2.2.2.1 (by norm_num)).2⟩

lemma sqrt_nine : Real.sqrt 9 = 3 := by
  rw [show (9 : ℝ) = 3 ^ 2 by norm_num]
  exact Real.sqrt_sq (by norm_num)

lemma eucDist_self (p : ℚ × ℚ) : eucDist p p = 0 := by
  simp [eucDist]

lemma eucDist_same_x (x y1 y2 : ℚ) :
    eucDist (x, y1) (x, y2) = |((y1 : ℝ) - (y2 : ℝ))| := by
  show Real.sqrt (((x : ℝ) - (x : ℝ)) ^ 2 + ((y1 : ℝ) - (y2 : ℝ)) ^ 2) = _
  rw [sub_self]
  rw [show ((0 : ℝ) ^ 2 + ((y1 : ℝ) - (y2 : ℝ)) ^ 2) =
    (((y1 : ℝ) - (y2 : ℝ)) ^ 2) by ring]
  exact Real.sqrt_sq_eq_abs _

lemma analyze_ne_none (obs : List Obs) (spot : ℚ) (h : obs ≠ []) :
    analyze obs spot ≠ none := by
  have hnt : nearTerm obs ≠ [] := nearTerm_ne_nil obs h
  cases ha : argminFirst (fun o => |o.y - spot|) (nearTerm obs) with
  | none => exact absurd ((argminFirst_eq_none _ _).mp ha) hnt
  | some a => simp [analyze, ha]

lemma length_linspace (a b : ℚ) (n : ℕ) : (linspace a b n).length = n := by
  rw [linspace, List.length_map, List.length_range]

lemma linspace_getD (a b : ℚ) (n i : ℕ) (hi : i < n) :
    (linspace a b n).getD i 0 = a + (i : ℚ) * (b - a) / ((n : ℚ) - 1) := by
  unfold linspace
  rw [List.getD_eq_getElem?_getD, List.getElem?_map, List.getElem?_range hi]
  rfl

lemma tiX_eq (obs : List Obs) (a b : ℚ)
    (ha : listMin (obs.map fun o => o.x) = some a)
    (hb : listMax (obs.map fun o => o.x) = some b) :
    tiX obs = linspace a b 30 := by
  simp [tiX, ha, hb]

lemma tiY_eq (obs : List Obs) (c d : ℚ)
    (hc : listMin (obs.map fun o => o.y) = some c)
    (hd : listMax (obs.map fun o => o.y) = some d) :
    tiY obs = linspace c d 30 := by
  simp [tiY, hc, hd]

lemma axes_length (obs : List Obs) (h : obs ≠ []) :
    (tiX obs).length = 30 ∧ (tiY obs).length = 30 := by
  have hmapx : obs.map (fun o => o.x) ≠ [] := by
    intro hmap; exact h (by simpa using hmap)
  have hmapy : obs.map (fun o => o.y) ≠ [] := by
    intro hmap; exact h (by simpa using hmap)
  obtain ⟨a, ha⟩ := listMin_exists _ hmapx
  obtain ⟨b, hb⟩ := listMax_exists _ hmapx
  obtain ⟨c, hc⟩ := listMin_exists _ hmapy
  obtain ⟨d, hd⟩ := listMax_exists _ hmapy
  rw [tiX_eq obs a b ha hb, tiY_eq obs c d hc hd]
  exact ⟨length_linspace a b 30, length_linspace c d 30⟩

lemma mesh_shape (obs : List Obs) (h : obs ≠ []) :
    (mesh obs).length = 30 ∧ ∀ row ∈ mesh obs, row.length = 30 := by
  obtain ⟨hx, hy⟩ := axes_length obs h
  constructor
  · simp [mesh, hy]
  · intro row hrow
    obtain ⟨yv, -, rfl⟩ := List.mem_map.mp hrow
    simp [hx]

lemma fitZ_shape (obs : List Obs) (h : obs ≠ []) (w : List ℝ) :
    (fitZ obs w).length = 30 ∧ ∀ row ∈ fitZ obs w, row.length = 30 := by
  obtain ⟨hm, hrows⟩ := mesh_shape obs h
  constructor
  · simp [fitZ, hm]
  · intro row hrow
    obtain ⟨r, hr, rfl⟩ := List.mem_map.mp hrow
    simp [hrows r hr]

/-- Claim C1: whenever the linear-kernel RBF weight system of the fitter
is solvable (which is exactly when scipy's solve succeeds and the fitter
accepts the observation set), the fitted surface evaluated at the centre
of any input observation reproduces that observation's z exactly, hence
within any positive tolerance. -/
theorem C1_exact_interpolation (obs : List Obs) (w : List ℝ)
    (hw : solvesRBF obs w) :
    ∀ i < obs.length,
      rbfEval obs w (pt (obs.getD i dObs)) = ((obs.getD i dObs).z : ℝ) := by
  intro i hi
  have hsys := hw.2 i hi
  unfold rbfEval
  rw [← hsys]
  exact Finset.sum_congr rfl fun j _ => mul_comm _ _

/-- Witness for C1: a concrete two-point set whose weight system is solved
by the weights 2 and 1, with exact reproduction at the first point. -/
theorem C1_exact_interpolation_witness :
    solvesRBF [(⟨0, 0, 3⟩ : Obs), ⟨0, 3, 6⟩] [(2 : ℝ), 1] ∧
    rbfEval [(⟨0, 0, 3⟩ : Obs), ⟨0, 3, 6⟩] [(2 : ℝ), 1]
        (pt (([(⟨0, 0, 3⟩ : Obs), ⟨0, 3, 6⟩]).getD 0 dObs)) =
      ((([(⟨0, 0, 3⟩ : Obs), ⟨0, 3, 6⟩]).getD 0 dObs).z : ℝ) := by
  have hd01 : eucDist ((0 : ℚ), (0 : ℚ)) ((0 : ℚ), (3 : ℚ)) = 3 := by
    rw [eucDist_same_x]
    norm_num
  have hd10 : eucDist ((0 : ℚ), (3 : ℚ)) ((0 : ℚ), (0 : ℚ)) = 3 := by
    rw [eucDist_same_x]
    norm_num
  have hw : solvesRBF [(⟨0, 0, 3⟩ : Obs), ⟨0, 3, 6⟩] [(2 : ℝ), 1] := by
    refine ⟨rfl, ?_⟩
    intro i hi
    simp only [List.length_cons, List.length_nil] at hi
    interval_cases i
    · simp only [List.length_cons, List.length_nil, Finset.sum_range_succ,
        Finset.sum_range_zero, List.getD_cons_zero, List.getD_cons_succ, pt]
      rw [eucDist_self, hd01]
      norm_num
    · simp only [List.length_cons, List.length_nil, Finset.sum_range_succ,
        Finset.sum_range_zero, List.getD_cons_zero, List.getD_cons_succ, pt]
      rw [eucDist_self, hd10]
      norm_num
  exact ⟨hw, C1_exact_interpolation _ _ hw 0 (by norm_num)⟩

/-- Claim C6 evaluated on the source: an observation set with a single
distinct x value (two points on one expiry) is nonetheless fitted — its
weight system is solvable and a full 30 by 30 height grid together with
metrics is produced; no InsufficientDataError exists in the code. -/
theorem C6_insufficient_data_bug :
    distinctX [(⟨1, 100, 1 / 5⟩ : Obs), ⟨1, 103, 11 / 50⟩] = 1 ∧
    solvesRBF [(⟨1, 100, 1 / 5⟩ : Obs), ⟨1, 103, 11 / 50⟩]
      [(11 / 150 : ℝ), 1 / 15] ∧
    (fitZ [(⟨1, 100, 1 / 5⟩ : Obs), ⟨1, 103, 11 / 50⟩]
      [(11 / 150 : ℝ), 1 / 15]).length = 30 ∧
    (∀ row ∈ fitZ [(⟨1, 100, 1 / 5⟩ : Obs), ⟨1, 103, 11 / 50⟩]
      [(11 / 150 : ℝ), 1 / 15], row.length = 30) ∧
    analyze [(⟨1, 100, 1 / 5⟩ : Obs), ⟨1, 103, 11 / 50⟩] 100 ≠ none := by
  have hne : ([(⟨1, 100, 1 / 5⟩ : Obs), ⟨1, 103, 11 / 50⟩] : List Obs) ≠ [] := by
    simp
  obtain ⟨hlen, hrows⟩ :=
    fitZ_shape [(⟨1, 100, 1 / 5⟩ : Obs), ⟨1, 103, 11 / 50⟩] hne
      [(11 / 150 : ℝ), 1 / 15]
  refine ⟨?_, ?_, hlen, hrows, analyze_ne_none _ 100 hne⟩
  · have h1 : ((1 : ℚ)) ∈ [(1 : ℚ)] := List.mem_singleton.mpr rfl
    simp [distinctX, List.dedup_cons_of_mem, h1]
  · have hd01 : eucDist ((1 : ℚ), (100 : ℚ)) ((1 : ℚ), (103 : ℚ)) = 3 := by
      rw [eucDist_same_x]
      norm_num
    have hd10 : eucDist ((1 : ℚ), (103 : ℚ)) ((1 : ℚ), (100 : ℚ)) = 3 := by
      rw [eucDist_same_x]
      norm_num
    refine ⟨rfl, ?_⟩
    intro i hi
    simp only [List.length_cons, List.length_nil] at hi
    interval_cases i
    · simp only [List.length_cons, List.length_nil, Finset.sum_range_succ,
        Finset.sum_range_zero, List.getD_cons_zero, List.getD_cons_succ, pt]
      rw [eucDist_self, hd01]
      norm_num
    · simp only [List.length_cons, List.length_nil, Finset.sum_range_succ,
        Finset.sum_range_zero, List.getD_cons_zero, List.getD_cons_succ, pt]
      rw [eucDist_self, hd10]
      norm_num

/-- Claim C8: with at least two distinct x and two distinct y values the
grid axes are the min and max spans of the observation set, each axis has
exactly 30 evenly spaced coordinates starting at the minimum and ending at
the maximum, and the coordinate mesh and every evaluated height grid are
exactly 30 by 30 regardless of the number of observations. -/
theorem C8_grid_shape (obs : List Obs)
    (hx : 2 ≤ distinctX obs) (hy : 2 ≤ distinctY obs) :
    ∃ a b c d : ℚ,
      listMin (obs.map fun o => o.x) = some a ∧
      listMax (obs.map fun o => o.x) = some b ∧
      listMin (obs.map fun o => o.y) = some c ∧
      listMax (obs.map fun o => o.y) = some d ∧
      (a ∈ obs.map (fun o => o.x) ∧ ∀ v ∈ obs.map (fun o => o.x), a ≤ v) ∧
      (b ∈ obs.map (fun o => o.x) ∧ ∀ v ∈ obs.map (fun o => o.x), v ≤ b) ∧
      (c ∈ obs.map (fun o => o.y) ∧ ∀ v ∈ obs.map (fun o => o.y), c ≤ v) ∧
      (d ∈ obs.map (fun o => o.y) ∧ ∀ v ∈ obs.map (fun o => o.y), v ≤ d) ∧
      tiX obs = linspace a b 30 ∧ tiY obs = linspace c d 30 ∧
      (tiX obs).length = 30 ∧ (tiY obs).length = 30 ∧
      (mesh obs).length = 30 ∧ (∀ row ∈ mesh obs, row.length = 30) ∧
      (∀ w, (fitZ obs w).length = 30 ∧ ∀ row ∈ fitZ obs w, row.length = 30) ∧
      (tiX obs).getD 0 0 = a ∧ (tiX obs).getD 29 0 = b ∧
      (tiY obs).getD 0 0 = c ∧ (tiY obs).getD 29 0 = d ∧
      (∀ i, i + 1 < 30 →
        (tiX obs).getD (i + 1) 0 - (tiX obs).getD i 0 = (b - a) / 29) ∧
      (∀ i, i + 1 < 30 →
        (tiY obs).getD (i + 1) 0 - (tiY obs).getD i 0 = (d - c) / 29) := by
  have h : obs ≠ [] := by
    intro hnil
    subst hnil
    simp [distinctX] at hx
  have hmapx : obs.map (fun o => o.x) ≠ [] := by
    intro hmap; exact h (by simpa using hmap)
  have hmapy : obs.map (fun o => o.y) ≠ [] := by
    intro hmap; exact h (by simpa using hmap)
  obtain ⟨a, ha⟩ := listMin_exists _ hmapx
  obtain ⟨b, hb⟩ := listMax_exists _ hmapx
  obtain ⟨c, hc⟩ := listMin_exists _ hmapy
  obtain ⟨d, hd⟩ := listMax_exists _ hmapy
  have htiX := tiX_eq obs a b ha hb
  have htiY := tiY_eq obs c d hc hd
  have hfirstX : (tiX obs).getD 0 0 = a := by
    rw [htiX, linspace_getD a b 30 0 (by norm_num)]
    norm_num
  have hlastX : (tiX obs).getD 29 0 = b := by
    rw [htiX, linspace_getD a b 30 29 (by norm_num)]
    push_cast
    field_simp
    ring
  have hfirstY : (tiY obs).getD 0 0 = c := by
    rw [htiY, linspace_getD c d 30 0 (by norm_num)]
    norm_num
  have hlastY : (tiY obs).getD 29 0 = d := by
    rw [htiY, linspace_getD c d 30 29 (by norm_num)]
    push_cast
    field_simp
    ring
  refine ⟨a, b, c, d, ha, hb, hc, hd,
    listMin_spec _ a ha, listMax_spec _ b hb,
    listMin_spec _ c hc, listMax_spec _ d hd,
    htiX, htiY, by rw [htiX]; exact length_linspace a b 30,
    by rw [htiY]; exact length_linspace c d 30,
    (mesh_shape obs h).1, (mesh_shape obs h).2,
    fun w => fitZ_shape obs h w,
    hfirstX, hlastX, hfirstY, hlastY, ?_, ?_⟩
  · intro i hi
    rw [htiX, linspace_getD a b 30 (i + 1) hi,
      linspace_getD a b 30 i (by omega)]
    push_cast
    ring
  · intro i hi
    rw [htiY, linspace_getD c d 30 (i + 1) hi,
      linspace_getD c d 30 i (by omega)]
    push_cast
    ring

/-- Witness for C8 at a concrete two-by-two observation set. -/
theorem C8_grid_shape_witness :
    2 ≤ distinctX [(⟨1, 100, 1 / 5⟩ : Obs), ⟨7, 103, 21 / 100⟩] ∧
    ∃ a b c d : ℚ,
      listMin ([(⟨1, 100, 1 / 5⟩ : Obs), ⟨7, 103, 21 / 100⟩].map
        fun o => o.x) = some a ∧
      listMax ([(⟨1, 100, 1 / 5⟩ : Obs), ⟨7, 103, 21 / 100⟩].map
        fun o => o.x) = some b ∧
      listMin ([(⟨1, 100, 1 / 5⟩ : Obs), ⟨7, 103, 21 / 100⟩].map
        fun o => o.y) = some c ∧
      listMax ([(⟨1, 100, 1 / 5⟩ : Obs), ⟨7, 103, 21 / 100⟩].map
        fun o => o.y) = some d ∧
      tiX [(⟨1, 100, 1 / 5⟩ : Obs), ⟨7, 103, 21 / 100⟩] = linspace a b 30 ∧
      (mesh [(⟨1, 100, 1 / 5⟩ : Obs), ⟨7, 103, 21 / 100⟩]).length = 30 := by
  have hx : distinctX [(⟨1, 100, 1 / 5⟩ : Obs), ⟨7, 103, 21 / 100⟩] = 2 := by
    have h17 : (1 : ℚ) ∉ [(7 : ℚ)] := by norm_num
    simp [distinctX, List.dedup_cons_of_not_mem, h17]
  have hy : distinctY [(⟨1, 100, 1 / 5⟩ : Obs), ⟨7, 103, 21 / 100⟩] = 2 := by
    have hyy : (100 : ℚ) ∉ [(103 : ℚ)] := by norm_num
    simp [distinctY, List.dedup_cons_of_not_mem, hyy]
  obtain ⟨a, b, c, d, ha, hb, hc, hd, -, -, -, -, htiX, -, -, -, hm, -⟩ :=
    C8_grid_shape [(⟨1, 100, 1 / 5⟩ : Obs), ⟨7, 103, 21 / 100⟩]
      (by rw [hx]) (by rw [hy])
  exact ⟨by rw [hx], a, b, c, d, ha, hb, hc, hd, htiX, hm⟩

/-- Claim C9: the core is a deterministic function of the observation set
and the spot: equal inputs give equal assembled output, equal surface
evaluations and equal height grids. -/
theorem C9_determinism (obs1 obs2 : List Obs) (spot1 spot2 : ℚ)
    (hobs : obs1 = obs2) (hspot : spot1 = spot2) :
    assembleCore obs1 spot1 = assembleCore obs2 spot2 ∧
    (∀ w p, rbfEval obs1 w p = rbfEval obs2 w p) ∧
    (∀ w, fitZ obs1 w = fitZ obs2 w) := by
  subst hobs
  subst hspot
  exact ⟨rfl, fun _ _ => rfl, fun _ => rfl⟩

/-- Witness for C9 at a concrete observation set and spot. -/
theorem C9_determinism_witness :
    assembleCore [(⟨1, 100, 1 / 5⟩ : Obs)] 100 =
      assembleCore [(⟨1, 100, 1 / 5⟩ : Obs)] 100 ∧
    (∀ w p, rbfEval [(⟨1, 100, 1 / 5⟩ : Obs)] w p =
      rbfEval [(⟨1, 100, 1 / 5⟩ : Obs)] w p) ∧
    (∀ w, fitZ [(⟨1, 100, 1 / 5⟩ : Obs)] w =
      fitZ [(⟨1, 100, 1 / 5⟩ : Obs)] w) :=
  C9_determinism [⟨1, 100, 1 / 5⟩] [⟨1, 100, 1 / 5⟩] 100 100 rfl rfl

end GoldIV
